import Mathlib

set_option maxHeartbeats 1000000

/-!
Shallow embedding of the AIG investment-clock backtest core
(src/backtest.py together with the tables of src/config.py).

A time series is a `List (Option ℚ)`: position `i` is the `i`-th row of the
(chronologically sorted, unique) index, and `none` models a missing value
(NaN).  Where explicit timestamps matter (the alignment of regime labels
onto return timestamps) a series is a `List (Nat × Option String)` keyed by
timestamp.  Fallible loading is an `Except String` value.
-/

/-- Floor of a rational, as an integer (`Int.fdiv` is floor division and the
denominator is positive). -/
def ratFloor (q : ℚ) : ℤ := q.num.fdiv q.den

/-- Ceiling of a rational, as an integer. -/
def ratCeil (q : ℚ) : ℤ := -ratFloor (-q)

/-- `np.nanpercentile(vals, p)` on the list of present values: linear
interpolation between ranks.  For `n` sorted values the rank is
`r = p/100 * (n-1)` and the result interpolates between the values at
positions `⌊r⌋` and `⌈r⌉`.  (NumPy raises on an empty input; every call
site below guards non-emptiness, so the default `0` branch is dead.) -/
def percentile_linear (vals : List ℚ) (p : ℚ) : ℚ :=
  let sorted := List.insertionSort (· ≤ ·) vals
  let r : ℚ := p * ((vals.length : ℚ) - 1) / 100
  let lo := (ratFloor r).toNat
  let hi := (ratCeil r).toNat
  let frac := r - (lo : ℚ)
  sorted.getD lo 0 + frac * (sorted.getD hi 0 - sorted.getD lo 0)

/-- `min_periods` of the source's rolling call: `max(1, window // 2)`. -/
def min_periods (window : Nat) : Nat := max 1 (window / 2)

/-- One rolling step: the trailing window (in time order) is the last
`window` observations of the reversed prefix including the current one;
the step yields the percentile of its present values when at least
`min_periods` of them are present, else a missing result. -/
def rollingStep (window : Nat) (p : ℚ) (prefixRev : List (Option ℚ)) : Option ℚ :=
  let win := (prefixRev.take window).reverse
  let vals := win.filterMap id
  if min_periods window ≤ vals.length then some (percentile_linear vals p) else none

/-- Streaming evaluation of `series.rolling(window, min_periods=max(1, window//2))
.apply(lambda x: np.nanpercentile(x.dropna(), p))`: walk the series carrying
the reversed prefix of observations already seen. -/
def rollingAux (window : Nat) (p : ℚ) (prefixRev : List (Option ℚ)) :
    List (Option ℚ) → List (Option ℚ)
  | [] => []
  | x :: rest => rollingStep window p (x :: prefixRev) :: rollingAux window p (x :: prefixRev) rest

/-- `rolling_percentile(series, window, p)` of src/backtest.py. -/
def rolling_percentile (series : List (Option ℚ)) (window : Nat) (p : ℚ) :
    List (Option ℚ) :=
  rollingAux window p [] series

/-- Pandas comparison `a >= b` on scalars that may be NaN: any comparison
involving NaN is `False`. -/
def cmpGE : Option ℚ → Option ℚ → Bool
  | some a, some b => b ≤ a
  | _, _ => false

/-- One row of the frame built by `classify_quadrant`. -/
structure QRow where
  vix_class : String
  hyig_class : String
  quadrant : String
  quadrantLabel : String
deriving DecidableEq, Repr, Inhabited

/-- `classify_quadrant(vix_ratio, hy_ig, window)` of src/backtest.py:
rolling 50th percentiles of both indicators, then
`vix_class = (vix_ratio >= vix_p50).map({True: "High", False: "Low"})`,
`hy_class = (hy_ig >= hy_p50).map({True: "Tight", False: "Easy"})`,
`Quadrant = vix_class + "_" + hy_class`,
`QuadrantLabel = vix_class + " VIX, " + hy_class + " credit"`. -/
def classify_quadrant (vix hy : List (Option ℚ)) (window : Nat) : List QRow :=
  let vp := rolling_percentile vix window 50
  let hp := rolling_percentile hy window 50
  (List.range vix.length).map fun i =>
    let vc := if cmpGE (vix.getD i none) (vp.getD i none) then "High" else "Low"
    let hc := if cmpGE (hy.getD i none) (hp.getD i none) then "Tight" else "Easy"
    { vix_class := vc, hyig_class := hc, quadrant := vc ++ "_" ++ hc,
      quadrantLabel := vc ++ " VIX, " ++ hc ++ " credit" }

/-- `prices.pct_change()` (no forward-filling of gaps, the default of current
pandas): the first row is missing, and row `i` is `prices[i]/prices[i-1] - 1`
when both are present, else missing. -/
def pctChangeAux : Option ℚ → List (Option ℚ) → List (Option ℚ)
  | _, [] => []
  | prev, cur :: rest =>
    (match prev, cur with
      | some b, some a => some (a / b - 1)
      | _, _ => none) :: pctChangeAux cur rest

/-- `pct_change` on one price column. -/
def pct_change : List (Option ℚ) → List (Option ℚ)
  | [] => []
  | x :: xs => none :: pctChangeAux x xs

/-- `(1 + ret).cumprod()` with pandas NaN-skipping: missing entries leave the
running product unchanged and produce a missing output. -/
def cumprodAux (acc : ℚ) : List (Option ℚ) → List (Option ℚ)
  | [] => []
  | none :: xs => none :: cumprodAux acc xs
  | some v :: xs => some (acc * v) :: cumprodAux (acc * v) xs

/-- Cumulative growth `cum = (1 + ret).cumprod()`. -/
def cumGrowth (ret : List (Option ℚ)) : List (Option ℚ) :=
  cumprodAux 1 (ret.map (Option.map (fun r => 1 + r)))

/-- One step of a skipna running maximum: fold a possibly missing value
into the running maximum seen so far. -/
def maxStep (acc x : Option ℚ) : Option ℚ :=
  match acc, x with
  | some m, some v => some (max m v)
  | none, some v => some v
  | acc, none => acc

/-- `cum.expanding().max()` with pandas NaN-skipping (`min_periods=1`): the
output at a position is the maximum of the present values so far, missing
only while no value has been seen yet. -/
def expMaxAux (acc : Option ℚ) : List (Option ℚ) → List (Option ℚ)
  | [] => []
  | x :: xs => maxStep acc x :: expMaxAux (maxStep acc x) xs

/-- Running peak of the cumulative growth. -/
def runningPeak (cum : List (Option ℚ)) : List (Option ℚ) :=
  expMaxAux none cum

/-- `dd = (cum - peak) / peak`, missing wherever either side is. -/
def drawdownOf (cum peak : List (Option ℚ)) : List (Option ℚ) :=
  List.zipWith (fun c pk =>
    match c, pk with
    | some c, some pk => some ((c - pk) / pk)
    | _, _ => none) cum peak

/-- Minimum of the present values of a column (`Series.min()`, skipna). -/
def minDefined (l : List (Option ℚ)) : Option ℚ :=
  l.foldl (fun acc x =>
    match acc, x with
    | some m, some v => some (min m v)
    | none, some v => some v
    | acc, none => acc) none

/-- `returns_and_drawdown` of src/backtest.py on one price column:
period returns, running drawdown and worst (most negative) drawdown. -/
def returns_and_drawdown (prices : List (Option ℚ)) :
    List (Option ℚ) × List (Option ℚ) × Option ℚ :=
  let ret := pct_change prices
  let cum := cumGrowth ret
  let peak := runningPeak cum
  let dd := drawdownOf cum peak
  (ret, dd, minDefined dd)

/-- `returns_and_drawdown` on a whole frame: each instrument column is
processed independently. -/
def returns_and_drawdown_frame (cols : List (List (Option ℚ))) :
    List (List (Option ℚ) × List (Option ℚ) × Option ℚ) :=
  cols.map returns_and_drawdown

/-- `quad.reindex(ret_index)`: for each return timestamp, the regime value at
the exactly matching timestamp, missing when there is no exact match. -/
def reindexAt (quad : List (Nat × Option String)) (t : Nat) : Option String :=
  match quad.lookup t with
  | some v => v
  | none => none

/-- `.ffill()` on a column, carrying the most recent present value. -/
def ffillFrom (carry : Option String) : List (Option String) → List (Option String)
  | [] => []
  | x :: xs =>
    let cur := match x with
      | some v => some v
      | none => carry
    cur :: ffillFrom cur xs

/-- `quad.reindex(ret_index).ffill()` of src/backtest.py (the Quadrant
column): exact-match reindex onto the return timestamps, then forward fill
along those timestamps. -/
def reindex_ffill (quad : List (Nat × Option String)) (retIdx : List Nat) :
    List (Option String) :=
  ffillFrom none (retIdx.map (reindexAt quad))

/-- Last present value of a list of optionals, `none` when there is none. -/
def lastSome (l : List (Option String)) : Option String :=
  l.foldl (fun acc x =>
    match x with
    | some v => some v
    | none => acc) none

/-- `Series.dropna().unique()`: the distinct present values in first-occurrence
order. -/
def uniqueAux (seen : List String) : List String → List String
  | [] => []
  | x :: xs => if x ∈ seen then uniqueAux seen xs else x :: uniqueAux (x :: seen) xs

/-- Distinct elements of a list, first occurrences kept in order. -/
def uniqueFirst (xs : List String) : List String := uniqueAux [] xs

/-- Number of aligned rows whose quadrant equals `q` (`mask.sum()`). -/
def countLabel (aligned : List (Option String)) (q : String) : Nat :=
  (aligned.filter (fun a => a = some q)).length

/-- Values of a column restricted to the rows whose aligned quadrant is `q`
(`col.loc[mask]`). -/
def maskRows (aligned : List (Option String)) (q : String) (col : List (Option ℚ)) :
    List (Option ℚ) :=
  ((aligned.zip col).filter (fun p => p.1 = some q)).map Prod.snd

/-- Column mean with pandas NaN-skipping: mean of the present values, missing
when none is present. -/
def meanDefined (l : List (Option ℚ)) : Option ℚ :=
  let vs := l.filterMap id
  if vs.length = 0 then none else some (vs.sum / vs.length)

/-- One conditional-statistics row of `backtest_monthly_quarterly`. -/
structure StatRow where
  quadrant : String
  n_obs : Nat
  avg_return : List (Option ℚ)
  avg_drawdown : List (Option ℚ)
  max_drawdown : List (Option ℚ)
deriving Repr

/-- The pandas `IndexingError` message for a boolean indexer whose index
does not cover the indexed object's index. -/
def unalignableMsg : String :=
  "IndexingError: Unalignable boolean Series provided as indexer"

/-- `obj.loc[mask]` preparation for a boolean Series `mask` indexed by
`maskIdx`: pandas (`check_bool_indexer`) reindexes the boolean Series onto
the object's index and raises `IndexingError` when some object timestamp
is missing from the mask's index; otherwise the aligned mask selects the
object's rows. -/
def alignBoolIndexer (objIdx maskIdx : List Nat) (mask : List Bool) :
    Except String (List Bool) :=
  if objIdx.all (fun t => t ∈ maskIdx) then
    Except.ok (objIdx.map (fun t => ((maskIdx.zip mask).lookup t).getD false))
  else Except.error unalignableMsg

/-- Rows of a column selected by an aligned boolean mask. -/
def selectRows (mask : List Bool) (col : List (Option ℚ)) : List (Option ℚ) :=
  ((mask.zip col).filter (fun p => p.1)).map Prod.snd

/-- The body of the per-quadrant conditional-statistics loop of
`backtest_monthly_quarterly` (lines 129-146 resp. 158-171), iterating over
the distinct present quadrant labels: skip silently when a label has fewer
than 2 member rows; else take the return rows by the mask (the mask's
index *is* the return index, so that `.loc` cannot fail) and the drawdown
rows by `dd_m.loc[mask]` (line 135 resp. 164) — there the boolean indexer,
indexed by the return index, must be alignable with the drawdown frame's
own full price index, and pandas raises `IndexingError` when it is not;
an error aborts the whole loop. -/
def condRowsAux (retIdx : List Nat) (aligned : List (Option String))
    (retCols : List (List (Option ℚ))) (ddIdx : List Nat)
    (ddCols : List (List (Option ℚ))) : List String → Except String (List StatRow)
  | [] => Except.ok []
  | q :: qs =>
    if 2 ≤ countLabel aligned q then
      match alignBoolIndexer ddIdx retIdx (aligned.map (fun a => a = some q)) with
      | Except.error e => Except.error e
      | Except.ok ddMask =>
        match condRowsAux retIdx aligned retCols ddIdx ddCols qs with
        | Except.error e => Except.error e
        | Except.ok rows =>
          Except.ok
            ({ quadrant := q,
               n_obs := countLabel aligned q,
               avg_return := retCols.map (fun col => meanDefined (maskRows aligned q col)),
               avg_drawdown := ddCols.map (fun col => meanDefined (selectRows ddMask col)),
               max_drawdown := ddCols.map (fun col => minDefined (selectRows ddMask col)) } :: rows)
    else condRowsAux retIdx aligned retCols ddIdx ddCols qs

/-- The per-quadrant conditional-statistics loop: the aligned labels and
the return columns are indexed by `retIdx` (the return index after
`dropna(how="all")`), the drawdown columns by `ddIdx` (the full price
index, never reduced by the source). -/
def condRows (retIdx : List Nat) (aligned : List (Option String))
    (retCols : List (List (Option ℚ))) (ddIdx : List Nat)
    (ddCols : List (List (Option ℚ))) : Except String (List StatRow) :=
  condRowsAux retIdx aligned retCols ddIdx ddCols (uniqueFirst (aligned.filterMap id))

/-- The four ranking lists of `fav_unfav`. -/
structure FavUnfav where
  favorite_by_return : List String
  unfavorite_by_return : List String
  favorite_by_drawdown : List String
  unfavorite_by_drawdown : List String
deriving Repr

/-- `fav_unfav(avg_ret_series, avg_dd_series, n)` of src/backtest.py:
drop the instruments with a missing statistic, sort by average return
descending resp. average drawdown ascending, and take the first `n`
(`head`) and last `n` (`tail`) instrument keys of each ordering. -/
def fav_unfav (avgRet avgDD : List (String × Option ℚ)) (n : Nat) : FavUnfav :=
  let sr := avgRet.filterMap (fun kv => kv.2.map (fun v => (kv.1, v)))
  let sd := avgDD.filterMap (fun kv => kv.2.map (fun v => (kv.1, v)))
  let byRet := List.insertionSort (fun a b : String × ℚ => b.2 ≤ a.2) sr
  let byDD := List.insertionSort (fun a b : String × ℚ => a.2 ≤ b.2) sd
  { favorite_by_return := (byRet.take n).map Prod.fst,
    unfavorite_by_return := (byRet.drop (byRet.length - n)).map Prod.fst,
    favorite_by_drawdown := (byDD.take n).map Prod.fst,
    unfavorite_by_drawdown := (byDD.drop (byDD.length - n)).map Prod.fst }

/-- A raw input table: a timestamp index and named columns of optional
values (the parsed CSV, after the file-existence and read steps that are
I/O boundary work). -/
structure RawTable where
  idx : List Nat
  cols : List (String × List (Option ℚ))

/-- Column access by name, an empty column when absent. -/
def RawTable.col (t : RawTable) (name : String) : List (Option ℚ) :=
  match t.cols.lookup name with
  | some c => c
  | none => []

/-- `min` of an index (`NaT` on an empty one). -/
def minIdx (l : List Nat) : Option Nat := l.foldl (fun acc x =>
  match acc with
  | some m => some (min m x)
  | none => some x) none

/-- `max` of an index. -/
def maxIdx (l : List Nat) : Option Nat := l.foldl (fun acc x =>
  match acc with
  | some m => some (max m x)
  | none => some x) none

/-- Rendering of an optional timestamp inside an error message. -/
def showIdx : Option Nat → String
  | some n => toString n
  | none => "NaT"

/-- The result of `load_data`: the two tables restricted to their common
timestamps. -/
structure LoadedData where
  index : List Nat
  indRows : List (Option ℚ × Option ℚ)
  etfIdx : List Nat

/-- The error message of `load_data` for a missing indicator column. -/
def missingColMsg (c : String) : String :=
  "indicators_monthly.csv missing column: " ++ c

/-- The error message of `load_data` when the two tables share no
timestamp; it reports the actual date ranges of both tables. -/
def noOverlapMsg (indIdx etfIdx : List Nat) : String :=
  "No overlapping dates between indicators (" ++ showIdx (minIdx indIdx) ++
    " to " ++ showIdx (maxIdx indIdx) ++ ") and ETF data (" ++
    showIdx (minIdx etfIdx) ++ " to " ++ showIdx (maxIdx etfIdx) ++
    "). Check data range."

/-- The validation and alignment part of `load_data` of src/backtest.py
(lines 43-56), after the files have been read: require the two indicator
columns, keep only their rows with at least one present value
(`dropna(how="all")`), intersect the indices and fail loudly when the
intersection is empty. -/
def load_data (ind etf : RawTable) : Except String LoadedData :=
  if ( "VIX_RATIO" : String) ∉ ind.cols.map Prod.fst then
    Except.error (missingColMsg "VIX_RATIO")
  else if ( "HY_IG_SPREAD" : String) ∉ ind.cols.map Prod.fst then
    Except.error (missingColMsg "HY_IG_SPREAD")
  else
    let vixCol := ind.col "VIX_RATIO"
    let hyCol := ind.col "HY_IG_SPREAD"
    let rows := (ind.idx.zip (vixCol.zip hyCol)).filter
      (fun r => r.2.1.isSome || r.2.2.isSome)
    let indIdx := rows.map Prod.fst
    let common := indIdx.filter (fun t => t ∈ etf.idx)
    if common = [] then
      Except.error (noOverlapMsg indIdx etf.idx)
    else
      Except.ok { index := common,
                  indRows := (rows.filter (fun r => r.1 ∈ common)).map Prod.snd,
                  etfIdx := common }

/-- `config.QUADRANTS` of src/config.py. -/
def quadrantTable : List ((String × String) × String) :=
  [(("Low", "Easy"), "Stable expansion (Risk-on)"),
   (("Low", "Tight"), "Late cycle (Selective)"),
   (("High", "Easy"), "Shock regime (Buy recovery)"),
   (("High", "Tight"), "Structural stress (Capital preservation)")]

/-- `config.QUADRANTS.get((vix_class, hy_class), quad)`. -/
def quadrantLabelOf (vc hc quad : String) : String :=
  match quadrantTable.lookup (vc, hc) with
  | some s => s
  | none => quad

/-- `series.dropna()` keeping the positional timestamps of the present
values. -/
def dropnaFrom (i : Nat) : List (Option ℚ) → List (Nat × ℚ)
  | [] => []
  | none :: rest => dropnaFrom (i + 1) rest
  | some v :: rest => (i, v) :: dropnaFrom (i + 1) rest

/-- `series.dropna()` from the start of the column. -/
def dropnaPairs (s : List (Option ℚ)) : List (Nat × ℚ) :=
  dropnaFrom 0 s

/-- The record returned by `current_regime`. -/
structure CurrentRegime where
  date : Nat
  vixValue : ℚ
  hyValue : ℚ
  vix_class : String
  hyig_class : String
  quadrant : String
  quadrantLabel : String
  threshold_vix_median : Option ℚ
  threshold_hy_median : Option ℚ
deriving DecidableEq, Repr

/-- `current_regime(ind, window)` of src/backtest.py on the two indicator
columns of one table (shared positional index `0..n-1`, so
`ind.index.max()` is `n-1`).  Drop the missing values of each column,
return `None` when either is then empty, read both raw values at the last
table timestamp (a pandas `KeyError` when absent there, modelled as
`Except.error`), compute the rolling medians over the compacted series,
take the threshold at the last timestamp when that timestamp survived
`dropna` and else fall back to the full-history median, and classify with
ties going to "High"/"Tight". -/
def current_regime (vixCol hyCol : List (Option ℚ)) (window : Nat) :
    Except String (Option CurrentRegime) :=
  let vix := dropnaPairs vixCol
  let hyig := dropnaPairs hyCol
  if vix = [] ∨ hyig = [] then Except.ok none
  else
    let lastDt := vixCol.length - 1
    let vixP50 := (vix.map Prod.fst).zip
      (rolling_percentile ((vix.map Prod.snd).map some) window 50)
    let hyP50 := (hyig.map Prod.fst).zip
      (rolling_percentile ((hyig.map Prod.snd).map some) window 50)
    match vix.lookup lastDt, hyig.lookup lastDt with
    | some vixLast, some hyLast =>
      let v50 : Option ℚ := match vixP50.lookup lastDt with
        | some o => o
        | none => some (percentile_linear (vix.map Prod.snd) 50)
      let h50 : Option ℚ := match hyP50.lookup lastDt with
        | some o => o
        | none => some (percentile_linear (hyig.map Prod.snd) 50)
      let vc := if cmpGE (some vixLast) v50 then "High" else "Low"
      let hc := if cmpGE (some hyLast) h50 then "Tight" else "Easy"
      let quad := vc ++ "_" ++ hc
      Except.ok (some
        { date := lastDt, vixValue := vixLast, hyValue := hyLast,
          vix_class := vc, hyig_class := hc, quadrant := quad,
          quadrantLabel := quadrantLabelOf vc hc quad,
          threshold_vix_median := v50, threshold_hy_median := h50 })
    | _, _ => Except.error "KeyError"

/-- `results["current_regime"] = current_regime(ind, window)` of
`run_backtest` (src/backtest.py lines 260-261): the field of the backtest
result is exactly the value `current_regime` returns. -/
def run_backtest_current_field (vixCol hyCol : List (Option ℚ)) (window : Nat) :
    Except String (Option CurrentRegime) :=
  current_regime vixCol hyCol window

/-- Return ratios of a gap-free price list: successive `p[i]/p[i-1] - 1`. -/
def ratios (b : ℚ) : List ℚ → List ℚ
  | [] => []
  | a :: rest => (a / b - 1) :: ratios a rest

/-- Running products of a gap-free factor list. -/
def scanMul (acc : ℚ) : List ℚ → List ℚ
  | [] => []
  | f :: fs => (acc * f) :: scanMul (acc * f) fs

/-! ### Helper lemmas -/

theorem length_rollingAux (w : Nat) (p : ℚ) (pre rest : List (Option ℚ)) :
    (rollingAux w p pre rest).length = rest.length := by
  induction rest generalizing pre with
  | nil => rfl
  | cons x xs ih => simp [rollingAux, ih]

theorem length_rolling_percentile (s : List (Option ℚ)) (w : Nat) (p : ℚ) :
    (rolling_percentile s w p).length = s.length :=
  length_rollingAux w p [] s

theorem rollingAux_getD (w : Nat) (p : ℚ) :
    ∀ (rest pre : List (Option ℚ)) (i : Nat), i < rest.length →
      (rollingAux w p pre rest).getD i none
        = rollingStep w p ((rest.take (i+1)).reverse ++ pre)
  | [], _, i, hi => absurd hi (by simp)
  | x :: xs, pre, 0, _ => by simp [rollingAux, rollingStep]
  | x :: xs, pre, i+1, hi => by
    have ih := rollingAux_getD w p xs (x :: pre) i (by simpa using hi)
    simp only [rollingAux, List.getD_cons_succ, ih, List.take_succ_cons,
      List.reverse_cons, List.append_assoc, List.singleton_append]

theorem rolling_percentile_getD (s : List (Option ℚ)) (w : Nat) (p : ℚ) (i : Nat)
    (hi : i < s.length) :
    (rolling_percentile s w p).getD i none
      = rollingStep w p ((s.take (i+1)).reverse) := by
  simpa using rollingAux_getD w p s [] i hi

theorem reverse_take_reverse (l : List (Option ℚ)) (w : Nat) :
    (l.reverse.take w).reverse = l.drop (l.length - w) := by
  rw [List.reverse_take]; simp

/-- **C2**: for every series, window and percentile, the rolling percentile
at position `i` is the direct computation on the trailing window of (at
most) `W` observations ending at `i` inclusive — it is defined iff that
window holds at least `max(1, ⌊W/2⌋)` present values, and where defined it
is the linear-interpolation percentile of exactly those present values; no
observation after `i` enters (the window is cut from `s.take (i+1)`). -/
theorem C2_rolling_percentile_trailing_window (s : List (Option ℚ)) (w : Nat) (p : ℚ)
    (i : Nat) (hi : i < s.length) :
    ((rolling_percentile s w p).getD i none
        = (if max 1 (w / 2) ≤ (((s.take (i+1)).drop (i + 1 - w)).filterMap id).length
           then some (percentile_linear (((s.take (i+1)).drop (i + 1 - w)).filterMap id) p)
           else none))
    ∧ (((rolling_percentile s w p).getD i none).isSome
        ↔ max 1 (w / 2) ≤ (((s.take (i+1)).drop (i + 1 - w)).filterMap id).length) := by
  have h1 := rolling_percentile_getD s w p i hi
  have hlen : (s.take (i+1)).length = i + 1 := by
    simp [List.length_take]
    omega
  have hwin : ((s.take (i+1)).reverse.take w).reverse = (s.take (i+1)).drop (i + 1 - w) := by
    rw [reverse_take_reverse, hlen]
  rw [h1]
  unfold rollingStep min_periods
  rw [hwin]
  refine ⟨rfl, ?_⟩
  dsimp only
  split <;> simp_all

/-- Witness for C2 at a concrete input. -/
theorem C2_rolling_percentile_trailing_window_witness :
    2 < ([some 3, none, some 5] : List (Option ℚ)).length
    ∧ (((rolling_percentile [some 3, none, some 5] 2 50).getD 2 none
        = (if max 1 (2 / 2) ≤ ((([some 3, none, some 5].take (2+1)).drop (2 + 1 - 2)).filterMap id).length
           then some (percentile_linear ((([some 3, none, some 5].take (2+1)).drop (2 + 1 - 2)).filterMap id) 50)
           else none))
      ∧ (((rolling_percentile [some 3, none, some 5] 2 50).getD 2 none).isSome
        ↔ max 1 (2 / 2) ≤ ((([some 3, none, some 5].take (2+1)).drop (2 + 1 - 2)).filterMap id).length)) :=
  ⟨by decide, C2_rolling_percentile_trailing_window [some 3, none, some 5] 2 50 2 (by decide)⟩

theorem cmpGE_none_right (x : Option ℚ) : cmpGE x none = false := by
  cases x <;> rfl

theorem length_classify_quadrant (vix hy : List (Option ℚ)) (w : Nat) :
    (classify_quadrant vix hy w).length = vix.length := by
  simp [classify_quadrant]

theorem classify_quadrant_getD (vix hy : List (Option ℚ)) (w : Nat) (i : Nat)
    (hi : i < vix.length) :
    (classify_quadrant vix hy w).getD i default
      = (let vc := if cmpGE (vix.getD i none) ((rolling_percentile vix w 50).getD i none)
                   then "High" else "Low"
         let hc := if cmpGE (hy.getD i none) ((rolling_percentile hy w 50).getD i none)
                   then "Tight" else "Easy"
         { vix_class := vc, hyig_class := hc, quadrant := vc ++ "_" ++ hc,
           quadrantLabel := vc ++ " VIX, " ++ hc ++ " credit" }) := by
  rw [List.getD_eq_getElem _ _ (by simpa [length_classify_quadrant] using hi)]
  simp [classify_quadrant, hi]

/-- **C1 (amended)**: `classify_quadrant` assigns every timestamp a label
that is always one of exactly the four values `Low_Easy`, `Low_Tight`,
`High_Easy`, `High_Tight`; the label is **never** undefined.  In
particular, where a rolling median is undefined the pandas comparison
`x >= NaN` is `False`, so that axis resolves to `Low` resp. `Easy`
instead of making the label undefined. -/
theorem C1_classify_quadrant_always_defined (vix hy : List (Option ℚ)) (w : Nat)
    (i : Nat) (hi : i < vix.length) :
    ((classify_quadrant vix hy w).getD i default).quadrant
        ∈ (["Low_Easy", "Low_Tight", "High_Easy", "High_Tight"] : List String)
    ∧ ((rolling_percentile vix w 50).getD i none = none →
        ((classify_quadrant vix hy w).getD i default).vix_class = "Low")
    ∧ ((rolling_percentile hy w 50).getD i none = none →
        ((classify_quadrant vix hy w).getD i default).hyig_class = "Easy") := by
  rw [classify_quadrant_getD vix hy w i hi]
  dsimp only
  refine ⟨?_, ?_, ?_⟩
  · split <;> split <;> simp
  · intro h
    rw [h, cmpGE_none_right]
    simp
  · intro h
    rw [h, cmpGE_none_right]
    simp

/-- Witness for C1 (amended) at a concrete input. -/
theorem C1_classify_quadrant_always_defined_witness :
    0 < ([some 1] : List (Option ℚ)).length
    ∧ (((classify_quadrant [some 1] [some 1] 4).getD 0 default).quadrant
          ∈ (["Low_Easy", "Low_Tight", "High_Easy", "High_Tight"] : List String)
        ∧ ((rolling_percentile [some 1] 4 50).getD 0 none = none →
            ((classify_quadrant [some 1] [some 1] 4).getD 0 default).vix_class = "Low")
        ∧ ((rolling_percentile [some 1] 4 50).getD 0 none = none →
            ((classify_quadrant [some 1] [some 1] 4).getD 0 default).hyig_class = "Easy")) :=
  ⟨by decide, C1_classify_quadrant_always_defined [some 1] [some 1] 4 0 (by decide)⟩

/-- **C1 counterexample**: with window 4 and a single observation, both
rolling medians are undefined at position 0 (`min_periods = 2`), yet the
assigned label is the defined regime `Low_Easy` — the claim's
"undefined iff either rolling median is undefined" fails: the quadrant
label the code produces is never undefined. -/
theorem C1_counterexample :
    rolling_percentile [some 1] 4 50 = [none]
    ∧ (classify_quadrant [some 1] [some 1] 4).map QRow.quadrant = ["Low_Easy"]
    ∧ ("Low_Easy" : String) ∈ (["Low_Easy", "Low_Tight", "High_Easy", "High_Tight"] : List String) := by
  decide

/-- **C10**: when, after dropping missing values, either indicator column
is entirely empty, `current_regime` returns `None` (no error, no regime),
and the `current_regime` field `run_backtest` stores in the result is that
same `None`. -/
theorem C10_current_regime_empty_is_none (vixCol hyCol : List (Option ℚ)) (w : Nat)
    (h : dropnaPairs vixCol = [] ∨ dropnaPairs hyCol = []) :
    current_regime vixCol hyCol w = Except.ok none
    ∧ run_backtest_current_field vixCol hyCol w = Except.ok none := by
  have h1 : current_regime vixCol hyCol w = Except.ok none := by
    rcases h with h | h <;> simp [current_regime, h]
  exact ⟨h1, h1⟩

/-- Witness for C10 at a concrete input. -/
theorem C10_current_regime_empty_is_none_witness :
    (dropnaPairs [none, none] = [] ∨ dropnaPairs [some 1] = [])
    ∧ (current_regime [none, none] [some 1] 3 = Except.ok none
      ∧ run_backtest_current_field [none, none] [some 1] 3 = Except.ok none) :=
  ⟨Or.inl (by decide),
   C10_current_regime_empty_is_none [none, none] [some 1] 3 (Or.inl (by decide))⟩

theorem length_pctChangeAux (prev : Option ℚ) (l : List (Option ℚ)) :
    (pctChangeAux prev l).length = l.length := by
  induction l generalizing prev with
  | nil => rfl
  | cons x xs ih => simp [pctChangeAux, ih]

theorem length_pct_change (prices : List (Option ℚ)) :
    (pct_change prices).length = prices.length := by
  cases prices with
  | nil => rfl
  | cons x xs => simp [pct_change, length_pctChangeAux]

theorem length_cumprodAux (acc : ℚ) (l : List (Option ℚ)) :
    (cumprodAux acc l).length = l.length := by
  induction l generalizing acc with
  | nil => rfl
  | cons x xs ih => cases x <;> simp [cumprodAux, ih]

theorem length_cumGrowth (ret : List (Option ℚ)) :
    (cumGrowth ret).length = ret.length := by
  simp [cumGrowth, length_cumprodAux]

theorem length_expMaxAux (acc : Option ℚ) (l : List (Option ℚ)) :
    (expMaxAux acc l).length = l.length := by
  induction l generalizing acc with
  | nil => rfl
  | cons x xs ih => simp [expMaxAux, ih]

theorem length_runningPeak (cum : List (Option ℚ)) :
    (runningPeak cum).length = cum.length := length_expMaxAux none cum

theorem length_drawdownOf (cum peak : List (Option ℚ)) :
    (drawdownOf cum peak).length = min cum.length peak.length := by
  simp [drawdownOf]

theorem pctChangeAux_getD_none (prev : Option ℚ) (l : List (Option ℚ)) (i : Nat)
    (hi : i < l.length) (h : l.getD i none = none) :
    (pctChangeAux prev l).getD i none = none := by
  induction l generalizing prev i with
  | nil => simp at hi
  | cons x xs ih =>
    cases i with
    | zero =>
      simp at h
      subst h
      cases prev <;> simp [pctChangeAux]
    | succ i =>
      rw [List.getD_cons_succ] at h
      simp at hi
      simpa [pctChangeAux] using ih x i hi h

theorem pct_change_getD_none (prices : List (Option ℚ)) (i : Nat)
    (hi : i < prices.length) (h : prices.getD i none = none) :
    (pct_change prices).getD i none = none := by
  cases prices with
  | nil => simp at hi
  | cons x xs =>
    cases i with
    | zero => simp [pct_change]
    | succ i =>
      rw [List.getD_cons_succ] at h
      simp at hi
      simpa [pct_change] using pctChangeAux_getD_none x xs i hi h

theorem cumprodAux_getD_none (acc : ℚ) (l : List (Option ℚ)) (i : Nat)
    (hi : i < l.length) (h : l.getD i none = none) :
    (cumprodAux acc l).getD i none = none := by
  induction l generalizing acc i with
  | nil => simp at hi
  | cons x xs ih =>
    cases i with
    | zero =>
      simp at h
      subst h
      simp [cumprodAux]
    | succ i =>
      simp at hi
      cases x <;> simpa [cumprodAux] using ih _ i hi (by simpa using h)

theorem cumGrowth_getD_none (ret : List (Option ℚ)) (i : Nat)
    (hi : i < ret.length) (h : ret.getD i none = none) :
    (cumGrowth ret).getD i none = none := by
  refine cumprodAux_getD_none 1 _ i (by simpa using hi) ?_
  rw [List.getD_eq_getElem _ _ (by simpa using hi), List.getElem_map]
  rw [List.getD_eq_getElem _ _ hi] at h
  simp [h]

/-- **C6**: returns and drawdowns are per-column computations (the frame
version maps the single-column function over the columns independently),
and a missing price at a timestamp yields a missing return and a missing
drawdown there — never a substituted zero or a value carried forward.
(The embedding uses `pct_change` without gap forward-filling, the
behaviour of current pandas.) -/
theorem C6_missing_price_propagates (prices : List (Option ℚ)) (i : Nat)
    (hi : i < prices.length) (hmiss : prices.getD i none = none) :
    ((returns_and_drawdown prices).1.getD i none = none
      ∧ (returns_and_drawdown prices).2.1.getD i none = none)
    ∧ ∀ (cols : List (List (Option ℚ))) (j : Nat), j < cols.length →
        (returns_and_drawdown_frame cols).getD j ([], [], none)
          = returns_and_drawdown (cols.getD j []) := by
  have hret : (pct_change prices).getD i none = none :=
    pct_change_getD_none prices i hi hmiss
  have hcum : (cumGrowth (pct_change prices)).getD i none = none :=
    cumGrowth_getD_none _ i (by simpa [length_pct_change] using hi) hret
  refine ⟨⟨hret, ?_⟩, ?_⟩
  · show (drawdownOf (cumGrowth (pct_change prices))
      (runningPeak (cumGrowth (pct_change prices)))).getD i none = none
    have hlen : i < (drawdownOf (cumGrowth (pct_change prices))
        (runningPeak (cumGrowth (pct_change prices)))).length := by
      simp [length_drawdownOf, length_runningPeak, length_cumGrowth, length_pct_change, hi]
    rw [List.getD_eq_getElem _ _ hlen]
    simp only [drawdownOf, List.getElem_zipWith]
    rw [List.getD_eq_getElem _ _ (by simp [length_cumGrowth, length_pct_change, hi])] at hcum
    rw [hcum]
  · intro cols j hj
    rw [List.getD_eq_getElem _ _ (by simpa [returns_and_drawdown_frame] using hj)]
    simp [returns_and_drawdown_frame, List.getElem?_eq_getElem hj]

/-- Witness for C6 at a concrete input. -/
theorem C6_missing_price_propagates_witness :
    1 < ([some 100, none, some 110] : List (Option ℚ)).length
    ∧ ([some 100, none, some 110] : List (Option ℚ)).getD 1 none = none
    ∧ (((returns_and_drawdown [some 100, none, some 110]).1.getD 1 none = none
        ∧ (returns_and_drawdown [some 100, none, some 110]).2.1.getD 1 none = none)
      ∧ ∀ (cols : List (List (Option ℚ))) (j : Nat), j < cols.length →
          (returns_and_drawdown_frame cols).getD j ([], [], none)
            = returns_and_drawdown (cols.getD j [])) :=
  ⟨by decide, by decide,
   C6_missing_price_propagates [some 100, none, some 110] 1 (by decide) (by decide)⟩

theorem mem_uniqueAux (xs : List String) : ∀ (seen : List String) (a : String),
    a ∈ uniqueAux seen xs ↔ a ∈ xs ∧ a ∉ seen := by
  induction xs with
  | nil => intro seen a; simp [uniqueAux]
  | cons x xs ih =>
    intro seen a
    by_cases hx : x ∈ seen
    · rw [uniqueAux, if_pos hx, ih]
      simp only [List.mem_cons]
      constructor
      · rintro ⟨h1, h2⟩; exact ⟨Or.inr h1, h2⟩
      · rintro ⟨h1 | h1, h2⟩
        · exact absurd (h1 ▸ hx) h2
        · exact ⟨h1, h2⟩
    · rw [uniqueAux, if_neg hx]
      by_cases hax : a = x
      · subst hax; simp [hx]
      · simp only [List.mem_cons, ih, List.mem_cons]
        constructor
        · rintro (h | ⟨h1, h2⟩)
          · exact absurd h hax
          · exact ⟨Or.inr h1, fun hs => h2 (Or.inr hs)⟩
        · rintro ⟨h1 | h1, h2⟩
          · exact absurd h1 hax
          · exact Or.inr ⟨h1, fun hs => by
              rcases hs with hs | hs
              · exact hax hs
              · exact h2 hs⟩

theorem mem_uniqueFirst (xs : List String) (a : String) :
    a ∈ uniqueFirst xs ↔ a ∈ xs := by
  rw [uniqueFirst, mem_uniqueAux]
  simp

theorem countLabel_pos_mem (aligned : List (Option String)) (q : String)
    (h : 1 ≤ countLabel aligned q) : q ∈ aligned.filterMap id := by
  unfold countLabel at h
  have hne : (aligned.filter (fun a => a = some q)) ≠ [] := by
    intro hnil
    rw [hnil] at h
    simp at h
  rcases List.exists_mem_of_ne_nil _ hne with ⟨x, hx⟩
  have hx2 := List.mem_filter.mp hx
  have hxq : x = some q := by simpa using hx2.2
  exact List.mem_filterMap.mpr ⟨x, hx2.1, by simp [hxq]⟩

theorem alignBoolIndexer_error (objIdx maskIdx : List Nat) (mask : List Bool)
    (t : Nat) (ht : t ∈ objIdx) (hnt : t ∉ maskIdx) :
    alignBoolIndexer objIdx maskIdx mask = Except.error unalignableMsg := by
  rw [alignBoolIndexer, if_neg]
  intro hall
  rw [List.all_eq_true] at hall
  exact hnt (by simpa using hall t ht)

theorem condRowsAux_error (retIdx : List Nat) (aligned : List (Option String))
    (retCols : List (List (Option ℚ))) (ddIdx : List Nat) (ddCols : List (List (Option ℚ)))
    (t : Nat) (ht : t ∈ ddIdx) (hnt : t ∉ retIdx) :
    ∀ qlist : List String, (∃ q ∈ qlist, 2 ≤ countLabel aligned q) →
      condRowsAux retIdx aligned retCols ddIdx ddCols qlist
        = Except.error unalignableMsg := by
  intro qlist
  induction qlist with
  | nil =>
    rintro ⟨q, hq, _⟩
    simp at hq
  | cons q' qs ih =>
    rintro ⟨q, hq, h2⟩
    by_cases h2' : 2 ≤ countLabel aligned q'
    · rw [condRowsAux, if_pos h2',
        alignBoolIndexer_error ddIdx retIdx _ t ht hnt]
    · rcases List.mem_cons.mp hq with h | h
      · exact absurd (h ▸ h2) h2'
      · rw [condRowsAux, if_neg h2']
        exact ih ⟨q, h, h2⟩

theorem condRowsAux_skip (retIdx : List Nat) (aligned : List (Option String))
    (retCols : List (List (Option ℚ))) (ddIdx : List Nat) (ddCols : List (List (Option ℚ)))
    (hall : ∀ q, countLabel aligned q < 2) :
    ∀ qlist : List String,
      condRowsAux retIdx aligned retCols ddIdx ddCols qlist = Except.ok [] := by
  intro qlist
  induction qlist with
  | nil => rfl
  | cons q qs ih =>
    rw [condRowsAux, if_neg (Nat.not_le.mpr (hall q))]
    exact ih

/-- **C7** (the claim is right, the code is wrong): whenever some drawdown
timestamp is absent from the return index — which in the program is always
the case, since `ret_m.dropna(how="all")` drops the all-missing first
`pct_change` row while `dd_m` keeps the full price index — the loop raises
the pandas `IndexingError` at `dd_m.loc[mask]` as soon as any label has at
least 2 aligned member rows, instead of producing that label's statistics
row.  Labels with fewer than 2 member rows alone are indeed silently
skipped without error (second part).  The third part evaluates the loop at
a concrete failing input. -/
theorem C7_cond_stats_raises_indexing_error :
    (∀ (retIdx : List Nat) (aligned : List (Option String))
        (retCols : List (List (Option ℚ))) (ddIdx : List Nat)
        (ddCols : List (List (Option ℚ))) (q : String) (t : Nat),
        2 ≤ countLabel aligned q → t ∈ ddIdx → t ∉ retIdx →
        condRows retIdx aligned retCols ddIdx ddCols = Except.error unalignableMsg)
    ∧ (∀ (retIdx : List Nat) (aligned : List (Option String))
        (retCols : List (List (Option ℚ))) (ddIdx : List Nat)
        (ddCols : List (List (Option ℚ))),
        (∀ q, countLabel aligned q < 2) →
        condRows retIdx aligned retCols ddIdx ddCols = Except.ok [])
    ∧ condRows [1, 2] [some "A", some "A"] [[some 1, some 2]] [0, 1, 2]
        [[some 0, some 0, some 0]] = Except.error unalignableMsg := by
  have h1 : ∀ (retIdx : List Nat) (aligned : List (Option String))
      (retCols : List (List (Option ℚ))) (ddIdx : List Nat)
      (ddCols : List (List (Option ℚ))) (q : String) (t : Nat),
      2 ≤ countLabel aligned q → t ∈ ddIdx → t ∉ retIdx →
      condRows retIdx aligned retCols ddIdx ddCols = Except.error unalignableMsg := by
    intro retIdx aligned retCols ddIdx ddCols q t h2 ht hnt
    have hq : q ∈ uniqueFirst (aligned.filterMap id) :=
      (mem_uniqueFirst _ _).mpr (countLabel_pos_mem aligned q (le_trans (by norm_num) h2))
    exact condRowsAux_error retIdx aligned retCols ddIdx ddCols t ht hnt _ ⟨q, hq, h2⟩
  refine ⟨h1, ?_, ?_⟩
  · intro retIdx aligned retCols ddIdx ddCols hall
    exact condRowsAux_skip retIdx aligned retCols ddIdx ddCols hall _
  · exact h1 [1, 2] [some "A", some "A"] [[some 1, some 2]] [0, 1, 2]
      [[some 0, some 0, some 0]] "A" 0 (by decide) (by decide) (by decide)

/-- Witness for C7 at the concrete failing input: the drawdown index
`[0, 1, 2]` keeps timestamp 0 (the all-missing first return row), the
return index is `[1, 2]`, and label `A` has 2 aligned member rows. -/
theorem C7_cond_stats_raises_indexing_error_witness :
    2 ≤ countLabel [some "A", some "A"] "A"
    ∧ (0 : Nat) ∈ ([0, 1, 2] : List Nat)
    ∧ (0 : Nat) ∉ ([1, 2] : List Nat)
    ∧ condRows [1, 2] [some "A", some "A"] [[some 1, some 2]] [0, 1, 2]
        [[some 0, some 0, some 0]] = Except.error unalignableMsg :=
  ⟨by decide, by decide, by decide,
   C7_cond_stats_raises_indexing_error.1 [1, 2] [some "A", some "A"]
     [[some 1, some 2]] [0, 1, 2] [[some 0, some 0, some 0]] "A" 0
     (by decide) (by decide) (by decide)⟩

theorem mem_stat_pairs (m : List (String × Option ℚ)) (k : String) (v : ℚ) :
    (k, v) ∈ m.filterMap (fun kv => kv.2.map (fun x => (kv.1, x))) ↔ (k, some v) ∈ m := by
  rw [List.mem_filterMap]
  constructor
  · rintro ⟨⟨a, b⟩, hm, hf⟩
    simp only [Option.map_eq_some'] at hf
    rcases hf with ⟨x, hx, heq⟩
    cases heq
    simpa [hx] using hm
  · intro hm
    exact ⟨(k, some v), hm, rfl⟩

theorem mem_fst_pairs (l : List (String × ℚ)) (k : String) :
    k ∈ l.map Prod.fst ↔ ∃ v, (k, v) ∈ l := by
  rw [List.mem_map]
  constructor
  · rintro ⟨⟨a, b⟩, h, rfl⟩; exact ⟨b, h⟩
  · rintro ⟨v, h⟩; exact ⟨(k, v), h, rfl⟩

theorem mem_fst_stat (m : List (String × Option ℚ)) (k : String) :
    k ∈ (m.filterMap (fun kv => kv.2.map (fun x => (kv.1, x)))).map Prod.fst
      ↔ ∃ v, (k, some v) ∈ m := by
  rw [mem_fst_pairs]
  constructor
  · rintro ⟨v, hv⟩; exact ⟨v, (mem_stat_pairs m k v).mp hv⟩
  · rintro ⟨v, hv⟩; exact ⟨v, (mem_stat_pairs m k v).mpr hv⟩

theorem sorted_take_props (r : (String × ℚ) → (String × ℚ) → Prop) [DecidableRel r]
    (sr : List (String × ℚ)) (n : Nat) :
    ((((List.insertionSort r sr).take n).map Prod.fst).length ≤ n
      ∧ (((List.insertionSort r sr).drop ((List.insertionSort r sr).length - n)).map Prod.fst).length ≤ n)
    ∧ ((∀ k, k ∈ ((List.insertionSort r sr).take n).map Prod.fst → k ∈ sr.map Prod.fst)
      ∧ (∀ k, k ∈ ((List.insertionSort r sr).drop ((List.insertionSort r sr).length - n)).map Prod.fst → k ∈ sr.map Prod.fst))
    ∧ (sr.length ≤ n →
        (∀ k, k ∈ ((List.insertionSort r sr).take n).map Prod.fst ↔ k ∈ sr.map Prod.fst)
        ∧ (∀ k, k ∈ ((List.insertionSort r sr).drop ((List.insertionSort r sr).length - n)).map Prod.fst ↔ k ∈ sr.map Prod.fst)) := by
  refine ⟨⟨?_, ?_⟩, ⟨?_, ?_⟩, ?_⟩
  · simp [List.length_take]
  · simp only [List.length_map, List.length_drop]
    omega
  · intro k hk
    rcases List.mem_map.mp hk with ⟨pr, hpr, rfl⟩
    exact List.mem_map.mpr
      ⟨pr, (List.perm_insertionSort r sr).subset (List.take_subset _ _ hpr), rfl⟩
  · intro k hk
    rcases List.mem_map.mp hk with ⟨pr, hpr, rfl⟩
    exact List.mem_map.mpr
      ⟨pr, (List.perm_insertionSort r sr).subset (List.drop_subset _ _ hpr), rfl⟩
  · intro h
    have hlen : (List.insertionSort r sr).length ≤ n := by
      rw [List.length_insertionSort]; exact h
    have htake : (List.insertionSort r sr).take n = List.insertionSort r sr :=
      List.take_of_length_le hlen
    have hdrop : (List.insertionSort r sr).drop ((List.insertionSort r sr).length - n)
        = List.insertionSort r sr := by
      rw [Nat.sub_eq_zero_of_le hlen, List.drop_zero]
    rw [htake, hdrop]
    have hmem : ∀ k, k ∈ (List.insertionSort r sr).map Prod.fst ↔ k ∈ sr.map Prod.fst :=
      fun k => ((List.perm_insertionSort r sr).map Prod.fst).mem_iff
    exact ⟨hmem, hmem⟩

/-- **C9**: each of the four ranking lists of `fav_unfav` has at most `n`
entries, contains only instruments whose underlying statistic is present,
and when at most `n` instruments have a present statistic it contains
exactly those instruments — never fabricated entries. -/
theorem C9_fav_unfav_bounded_and_defined (avgRet avgDD : List (String × Option ℚ)) (n : Nat) :
    ((fav_unfav avgRet avgDD n).favorite_by_return.length ≤ n
      ∧ (fav_unfav avgRet avgDD n).unfavorite_by_return.length ≤ n
      ∧ (fav_unfav avgRet avgDD n).favorite_by_drawdown.length ≤ n
      ∧ (fav_unfav avgRet avgDD n).unfavorite_by_drawdown.length ≤ n)
    ∧ ((∀ k, k ∈ (fav_unfav avgRet avgDD n).favorite_by_return → ∃ v, (k, some v) ∈ avgRet)
      ∧ (∀ k, k ∈ (fav_unfav avgRet avgDD n).unfavorite_by_return → ∃ v, (k, some v) ∈ avgRet)
      ∧ (∀ k, k ∈ (fav_unfav avgRet avgDD n).favorite_by_drawdown → ∃ v, (k, some v) ∈ avgDD)
      ∧ (∀ k, k ∈ (fav_unfav avgRet avgDD n).unfavorite_by_drawdown → ∃ v, (k, some v) ∈ avgDD))
    ∧ (((avgRet.filterMap (fun kv => kv.2.map (fun x => (kv.1, x)))).length ≤ n →
          ∀ k, (k ∈ (fav_unfav avgRet avgDD n).favorite_by_return ↔ ∃ v, (k, some v) ∈ avgRet)
            ∧ (k ∈ (fav_unfav avgRet avgDD n).unfavorite_by_return ↔ ∃ v, (k, some v) ∈ avgRet))
      ∧ ((avgDD.filterMap (fun kv => kv.2.map (fun x => (kv.1, x)))).length ≤ n →
          ∀ k, (k ∈ (fav_unfav avgRet avgDD n).favorite_by_drawdown ↔ ∃ v, (k, some v) ∈ avgDD)
            ∧ (k ∈ (fav_unfav avgRet avgDD n).unfavorite_by_drawdown ↔ ∃ v, (k, some v) ∈ avgDD))) := by
  have hr := sorted_take_props (fun a b : String × ℚ => b.2 ≤ a.2)
    (avgRet.filterMap (fun kv => kv.2.map (fun x => (kv.1, x)))) n
  have hd := sorted_take_props (fun a b : String × ℚ => a.2 ≤ b.2)
    (avgDD.filterMap (fun kv => kv.2.map (fun x => (kv.1, x)))) n
  refine ⟨⟨hr.1.1, hr.1.2, hd.1.1, hd.1.2⟩,
          ⟨?_, ?_, ?_, ?_⟩, ?_, ?_⟩
  · intro k hk
    exact (mem_fst_stat avgRet k).mp (hr.2.1.1 k hk)
  · intro k hk
    exact (mem_fst_stat avgRet k).mp (hr.2.1.2 k hk)
  · intro k hk
    exact (mem_fst_stat avgDD k).mp (hd.2.1.1 k hk)
  · intro k hk
    exact (mem_fst_stat avgDD k).mp (hd.2.1.2 k hk)
  · intro hle k
    have h5 := hr.2.2 hle
    exact ⟨(h5.1 k).trans (mem_fst_stat avgRet k), (h5.2 k).trans (mem_fst_stat avgRet k)⟩
  · intro hle k
    have h5 := hd.2.2 hle
    exact ⟨(h5.1 k).trans (mem_fst_stat avgDD k), (h5.2 k).trans (mem_fst_stat avgDD k)⟩

/-- **C8**: when a required indicator column is absent, or the two tables
share no common timestamp, the load step fails with an error naming the
missing column resp. reporting the actual date ranges of both tables
(`noOverlapMsg` interpolates min and max of each index), and a successful
result always carries a non-empty common index — never an empty-but-ok
result. -/
theorem C8_load_data_fatal_preconditions (ind etf : RawTable) :
    (( "VIX_RATIO" : String) ∉ ind.cols.map Prod.fst →
        load_data ind etf = Except.error (missingColMsg "VIX_RATIO"))
    ∧ (( "VIX_RATIO" : String) ∈ ind.cols.map Prod.fst →
       ( "HY_IG_SPREAD" : String) ∉ ind.cols.map Prod.fst →
        load_data ind etf = Except.error (missingColMsg "HY_IG_SPREAD"))
    ∧ (( "VIX_RATIO" : String) ∈ ind.cols.map Prod.fst →
       ( "HY_IG_SPREAD" : String) ∈ ind.cols.map Prod.fst →
       (∀ t ∈ ((ind.idx.zip ((ind.col "VIX_RATIO").zip (ind.col "HY_IG_SPREAD"))).filter
            (fun r => r.2.1.isSome || r.2.2.isSome)).map Prod.fst, t ∉ etf.idx) →
        load_data ind etf = Except.error (noOverlapMsg
          (((ind.idx.zip ((ind.col "VIX_RATIO").zip (ind.col "HY_IG_SPREAD"))).filter
            (fun r => r.2.1.isSome || r.2.2.isSome)).map Prod.fst) etf.idx))
    ∧ (∀ r, load_data ind etf = Except.ok r → r.index ≠ []) := by
  refine ⟨?_, ?_, ?_, ?_⟩
  · intro h1
    unfold load_data
    rw [if_pos h1]
  · intro h1 h2
    unfold load_data
    rw [if_neg (by simpa using h1), if_pos h2]
  · intro h1 h2 h3
    unfold load_data
    rw [if_neg (by simpa using h1), if_neg (by simpa using h2)]
    have hempty : (((ind.idx.zip ((ind.col "VIX_RATIO").zip (ind.col "HY_IG_SPREAD"))).filter
        (fun r => r.2.1.isSome || r.2.2.isSome)).map Prod.fst).filter (fun t => t ∈ etf.idx) = [] := by
      apply List.filter_eq_nil_iff.mpr
      intro t ht
      simpa using h3 t ht
    dsimp only
    rw [hempty]
    rw [if_pos rfl]
  · intro r hr
    unfold load_data at hr
    split at hr
    · exact absurd hr (by simp)
    · split at hr
      · exact absurd hr (by simp)
      · dsimp only at hr
        split at hr
        · exact absurd hr (by simp)
        · rename_i hne
          injection hr with hr
          subst hr
          exact hne

/-- Witness for C8 at a concrete input (the no-overlap branch and the
missing-column branch). -/
theorem C8_load_data_fatal_preconditions_witness :
    ( "VIX_RATIO" : String) ∈
        (RawTable.mk [1, 2] [( "VIX_RATIO", [some 1, none]), ( "HY_IG_SPREAD", [none, some 2])]).cols.map Prod.fst
    ∧ ( "HY_IG_SPREAD" : String) ∈
        (RawTable.mk [1, 2] [( "VIX_RATIO", [some 1, none]), ( "HY_IG_SPREAD", [none, some 2])]).cols.map Prod.fst
    ∧ load_data
        (RawTable.mk [1, 2] [( "VIX_RATIO", [some 1, none]), ( "HY_IG_SPREAD", [none, some 2])])
        (RawTable.mk [3, 4] [( "XLK", [some 1, some 2])])
      = Except.error (noOverlapMsg [1, 2] [3, 4]) :=
  ⟨by decide, by decide,
   (C8_load_data_fatal_preconditions
      (RawTable.mk [1, 2] [( "VIX_RATIO", [some 1, none]), ( "HY_IG_SPREAD", [none, some 2])])
      (RawTable.mk [3, 4] [( "XLK", [some 1, some 2])])).2.2.1
     (by decide) (by decide) (by decide)⟩

/-- Witness for C9 at a concrete input: with two instruments, one of which
has a missing statistic, the exactness clause applies with `n = 4`. -/
theorem C9_fav_unfav_bounded_and_defined_witness :
    (([( "a", some 3), ( "b", none)] : List (String × Option ℚ)).filterMap
        (fun kv => kv.2.map (fun x => (kv.1, x)))).length ≤ 4
    ∧ (( "a" ∈ (fav_unfav [( "a", some 3), ( "b", none)] [( "c", some (-1))] 4).favorite_by_return
          ↔ ∃ v, (( "a" : String), some v) ∈ ([( "a", some 3), ( "b", none)] : List (String × Option ℚ)))
        ∧ ( "a" ∈ (fav_unfav [( "a", some 3), ( "b", none)] [( "c", some (-1))] 4).unfavorite_by_return
          ↔ ∃ v, (( "a" : String), some v) ∈ ([( "a", some 3), ( "b", none)] : List (String × Option ℚ)))) :=
  ⟨by decide,
   (C9_fav_unfav_bounded_and_defined [( "a", some 3), ( "b", none)] [( "c", some (-1))] 4).2.2.1
     (by decide) "a"⟩

theorem ffillFrom_getD (l : List (Option String)) : ∀ (carry : Option String) (j : Nat),
    j < l.length →
    (ffillFrom carry l).getD j none
      = (l.take (j+1)).foldl (fun acc x =>
          match x with
          | some v => some v
          | none => acc) carry := by
  induction l with
  | nil => intro carry j hj; simp at hj
  | cons x xs ih =>
    intro carry j hj
    cases j with
    | zero => cases x <;> simp [ffillFrom]
    | succ j =>
      cases x with
      | some v =>
        have := ih (some v) j (by simpa using hj)
        simpa [ffillFrom, List.take_succ_cons] using this
      | none =>
        have := ih carry j (by simpa using hj)
        simpa [ffillFrom, List.take_succ_cons] using this

theorem foldl_orElse_mem (l : List (Option String)) : ∀ (acc : Option String) (v : String),
    l.foldl (fun acc x =>
      match x with
      | some u => some u
      | none => acc) acc = some v → some v ∈ l ∨ acc = some v := by
  induction l with
  | nil => intro acc v h; exact Or.inr h
  | cons x xs ih =>
    intro acc v h
    rcases ih _ v h with h1 | h1
    · exact Or.inl (List.mem_cons_of_mem _ h1)
    · cases x with
      | some u =>
        injection h1 with h1
        subst h1
        exact Or.inl (List.mem_cons_self _ _)
      | none => exact Or.inr h1

theorem lastSome_mem (l : List (Option String)) (v : String)
    (h : lastSome l = some v) : some v ∈ l := by
  rcases foldl_orElse_mem l none v h with h1 | h1
  · exact h1
  · exact absurd h1 (by simp)

/-- **C4 (amended)**: after `quad.reindex(ret_index).ffill()`, the label at
the `j`-th return timestamp equals the most recent *present* value among the
reindexed labels at return timestamps up to and including `j` — i.e.
forward-filling only ever consults regime values observed at earlier-or-
equal **return** timestamps that exactly match a regime timestamp (it does
not consult regime timestamps absent from the return index), and is
missing when no such value exists.  Consequently there is no look-ahead:
any assigned label comes from a regime timestamp `s ≤` the `j`-th return
timestamp. -/
theorem C4_reindex_ffill_no_lookahead (quad : List (Nat × Option String))
    (retIdx : List Nat) (j : Nat) (hj : j < retIdx.length)
    (hsorted : List.Chain' (· ≤ ·) retIdx) :
    (reindex_ffill quad retIdx).getD j none
        = lastSome ((retIdx.take (j+1)).map (reindexAt quad))
    ∧ (∀ lab, (reindex_ffill quad retIdx).getD j none = some lab →
        ∃ s, s ∈ retIdx ∧ s ≤ retIdx.getD j 0 ∧ reindexAt quad s = some lab) := by
  have hmap : (retIdx.map (reindexAt quad)).take (j+1)
      = (retIdx.take (j+1)).map (reindexAt quad) := by
    rw [List.map_take]
  have h1 : (reindex_ffill quad retIdx).getD j none
      = lastSome ((retIdx.take (j+1)).map (reindexAt quad)) := by
    rw [reindex_ffill, ffillFrom_getD _ none j (by simpa using hj), hmap]
    rfl
  refine ⟨h1, ?_⟩
  intro lab hlab
  rw [h1] at hlab
  have hmem := lastSome_mem _ lab hlab
  rcases List.mem_map.mp hmem with ⟨s, hs, hlab2⟩
  refine ⟨s, List.take_subset _ _ hs, ?_, hlab2⟩
  rw [List.mem_take_iff_getElem] at hs
  rcases hs with ⟨k, hk, hv⟩
  have hk2 : k < retIdx.length := by simp at hk; omega
  have hkj : k ≤ j := by simp at hk; omega
  rw [List.getD_eq_getElem _ _ hj]
  rcases Nat.eq_or_lt_of_le hkj with h | h
  · subst h
    rw [← hv]
  · have hp := List.chain'_iff_pairwise.mp hsorted
    rw [List.pairwise_iff_get] at hp
    have := hp ⟨k, hk2⟩ ⟨j, hj⟩ h
    simp only [List.get_eq_getElem] at this
    rw [← hv]
    exact this

/-- Witness for C4 (amended) at a concrete input. -/
theorem C4_reindex_ffill_no_lookahead_witness :
    1 < ([0, 2] : List Nat).length
    ∧ List.Chain' (· ≤ ·) ([0, 2] : List Nat)
    ∧ ((reindex_ffill [(0, some "A"), (1, some "B")] [0, 2]).getD 1 none
          = lastSome ((([0, 2] : List Nat).take (1+1)).map (reindexAt [(0, some "A"), (1, some "B")]))
        ∧ (∀ lab, (reindex_ffill [(0, some "A"), (1, some "B")] [0, 2]).getD 1 none = some lab →
            ∃ s, s ∈ ([0, 2] : List Nat) ∧ s ≤ ([0, 2] : List Nat).getD 1 0
              ∧ reindexAt [(0, some "A"), (1, some "B")] s = some lab)) :=
  ⟨by decide, by simp,
   C4_reindex_ffill_no_lookahead [(0, some "A"), (1, some "B")] [0, 2] 1 (by decide) (by simp)⟩

/-- **C4 counterexample**: the regime stream carries label `B` at timestamp
1 (a timestamp absent from the return index `[0, 2]`), so the claimed
"label at t equals label at the latest s ≤ t with a defined label" demands
label `B` at return timestamp 2 — but `reindex().ffill()` reindexes first
(dropping timestamp 1 entirely) and fills from the previous *return*
timestamp, assigning label `A` at timestamp 2. -/
theorem C4_counterexample :
    reindex_ffill [(0, some "A"), (1, some "B")] [0, 2] = [some "A", some "A"]
    ∧ (1 ≤ 2 ∧ reindexAt [(0, some "A"), (1, some "B")] 1 = some "B")
    ∧ (∀ s, s ≤ 2 → 1 < s → reindexAt [(0, some "A"), (1, some "B")] s = none)
    ∧ some ( "A" : String) ≠ some ( "B" : String) := by
  refine ⟨by decide, by decide, ?_, by decide⟩
  intro s hs1 hs2
  interval_cases s
  decide

theorem pctChangeAux_factor_pos (l : List (Option ℚ)) : ∀ (prev : Option ℚ),
    (∀ v, prev = some v → 0 < v) → (∀ v, some v ∈ l → 0 < v) →
    ∀ r, some r ∈ pctChangeAux prev l → 0 < 1 + r := by
  induction l with
  | nil => intro prev _ _ r h; simp [pctChangeAux] at h
  | cons x xs ih =>
    intro prev hprev hl r hr
    have hltail : ∀ v, some v ∈ xs → 0 < v :=
      fun v hv => hl v (List.mem_cons_of_mem _ hv)
    have hlhead : ∀ v, x = some v → 0 < v :=
      fun v hv => hl v (hv ▸ List.mem_cons_self _ _)
    cases prev with
    | none =>
      cases x with
      | none =>
        simp only [pctChangeAux] at hr
        rcases List.mem_cons.mp hr with h | h
        · exact absurd h (by simp)
        · exact ih none (by simp) hltail r h
      | some a =>
        simp only [pctChangeAux] at hr
        rcases List.mem_cons.mp hr with h | h
        · exact absurd h (by simp)
        · exact ih (some a) hlhead hltail r h
    | some b =>
      cases x with
      | none =>
        simp only [pctChangeAux] at hr
        rcases List.mem_cons.mp hr with h | h
        · exact absurd h (by simp)
        · exact ih none (by simp) hltail r h
      | some a =>
        simp only [pctChangeAux] at hr
        rcases List.mem_cons.mp hr with h | h
        · have hb := hprev b rfl
          have ha := hlhead a rfl
          simp only [Option.some.injEq] at h
          have h2 : 1 + r = a / b := by rw [h]; ring
          rw [h2]
          exact div_pos ha hb
        · exact ih (some a) hlhead hltail r h

theorem pct_change_factor_pos (prices : List (Option ℚ))
    (hpos : ∀ v, some v ∈ prices → 0 < v) :
    ∀ r, some r ∈ pct_change prices → 0 < 1 + r := by
  cases prices with
  | nil => intro r h; simp [pct_change] at h
  | cons x xs =>
    intro r hr
    rw [pct_change] at hr
    rcases List.mem_cons.mp hr with h | h
    · exact absurd h.symm (by simp)
    · exact pctChangeAux_factor_pos xs x
        (fun v hv => hpos v (hv ▸ List.mem_cons_self _ _))
        (fun v hv => hpos v (List.mem_cons_of_mem _ hv)) r h

theorem cumGrowth_factor_pos (prices : List (Option ℚ))
    (hpos : ∀ v, some v ∈ prices → 0 < v) :
    ∀ w, some w ∈ (pct_change prices).map (Option.map (fun r => 1 + r)) → 0 < w := by
  intro w hw
  rcases List.mem_map.mp hw with ⟨r, hr, hmap⟩
  cases r with
  | none => simp at hmap
  | some r =>
    simp only [Option.map_some', Option.some.injEq] at hmap
    subst hmap
    exact pct_change_factor_pos prices hpos r hr

theorem cumprodAux_pos (l : List (Option ℚ)) : ∀ (acc : ℚ), 0 < acc →
    (∀ w, some w ∈ l → 0 < w) → ∀ c, some c ∈ cumprodAux acc l → 0 < c := by
  induction l with
  | nil => intro acc _ _ c h; simp [cumprodAux] at h
  | cons x xs ih =>
    intro acc hacc hl c hc
    cases x with
    | none =>
      rw [cumprodAux] at hc
      rcases List.mem_cons.mp hc with h | h
      · exact absurd h.symm (by simp)
      · exact ih acc hacc (fun w hw => hl w (List.mem_cons_of_mem _ hw)) c h
    | some v =>
      have hv := hl v (List.mem_cons_self _ _)
      rw [cumprodAux] at hc
      rcases List.mem_cons.mp hc with h | h
      · injection h with h
        rw [h]
        exact mul_pos hacc hv
      · exact ih (acc * v) (mul_pos hacc hv)
          (fun w hw => hl w (List.mem_cons_of_mem _ hw)) c h

theorem cumGrowth_pos (prices : List (Option ℚ))
    (hpos : ∀ v, some v ∈ prices → 0 < v) :
    ∀ c, some c ∈ cumGrowth (pct_change prices) → 0 < c :=
  cumprodAux_pos _ 1 one_pos (cumGrowth_factor_pos prices hpos)

theorem expMaxAux_getD (l : List (Option ℚ)) : ∀ (acc : Option ℚ) (i : Nat),
    i < l.length →
    (expMaxAux acc l).getD i none = (l.take (i+1)).foldl maxStep acc := by
  induction l with
  | nil => intro acc i hi; simp at hi
  | cons x xs ih =>
    intro acc i hi
    cases i with
    | zero => simp [expMaxAux]
    | succ i =>
      have := ih (maxStep acc x) i (by simpa using hi)
      simpa [expMaxAux, List.take_succ_cons] using this

theorem foldl_maxStep_le (l : List (Option ℚ)) : ∀ (acc : Option ℚ) (m : ℚ),
    l.foldl maxStep acc = some m →
    (∀ x, some x ∈ l → x ≤ m) ∧ (∀ a, acc = some a → a ≤ m) := by
  induction l with
  | nil =>
    intro acc m h
    refine ⟨fun x hx => absurd hx (by simp), fun a ha => ?_⟩
    rw [ha] at h
    injection h with h
    exact le_of_eq h
  | cons x xs ih =>
    intro acc m h
    rw [List.foldl_cons] at h
    rcases ih (maxStep acc x) m h with ⟨h1, h2⟩
    have hstep : ∀ a, maxStep acc x = some a → a ≤ m := h2
    refine ⟨?_, ?_⟩
    · intro y hy
      rcases List.mem_cons.mp hy with hy | hy
      · cases acc with
        | none =>
          have : maxStep none x = some y := by rw [← hy]; rfl
          exact hstep y this
        | some a =>
          have : maxStep (some a) x = some (max a y) := by rw [← hy]; rfl
          have hm := hstep (max a y) this
          exact le_trans (le_max_right a y) hm
      · exact h1 y hy
    · intro a ha
      subst ha
      cases x with
      | none => exact hstep a rfl
      | some v =>
        have : maxStep (some a) (some v) = some (max a v) := rfl
        exact le_trans (le_max_left a v) (hstep _ this)

theorem foldl_maxStep_attained (l : List (Option ℚ)) : ∀ (acc : Option ℚ) (m : ℚ),
    l.foldl maxStep acc = some m → some m ∈ l ∨ acc = some m := by
  induction l with
  | nil => intro acc m h; exact Or.inr h
  | cons x xs ih =>
    intro acc m h
    rw [List.foldl_cons] at h
    rcases ih (maxStep acc x) m h with h1 | h1
    · exact Or.inl (List.mem_cons_of_mem _ h1)
    · cases x with
      | none =>
        cases acc with
        | some a => exact Or.inr (by simpa [maxStep] using h1)
        | none => exact absurd h1 (by simp [maxStep])
      | some v =>
        cases acc with
        | none =>
          injection h1 with h1
          subst h1
          exact Or.inl (List.mem_cons_self _ _)
        | some a =>
          have hm : max a v = m := by
            have : maxStep (some a) (some v) = some (max a v) := rfl
            rw [this] at h1
            injection h1
          rcases max_choice a v with hc | hc
          · exact Or.inr (by rw [← hm, hc])
          · refine Or.inl ?_
            rw [← hm, hc]
            exact List.mem_cons_self _ _

theorem foldl_maxStep_some_acc (l : List (Option ℚ)) : ∀ (a : ℚ),
    ∃ m, l.foldl maxStep (some a) = some m := by
  induction l with
  | nil => intro a; exact ⟨a, rfl⟩
  | cons x xs ih =>
    intro a
    cases x with
    | none => exact ih a
    | some v => exact ih (max a v)

theorem foldl_maxStep_some (l : List (Option ℚ)) : ∀ (acc : Option ℚ) (c : ℚ),
    some c ∈ l → ∃ m, l.foldl maxStep acc = some m := by
  induction l with
  | nil => intro acc c h; simp at h
  | cons x xs ih =>
    intro acc c hc
    rw [List.foldl_cons]
    rcases List.mem_cons.mp hc with h | h
    · cases acc with
      | none =>
        rw [← h]
        exact foldl_maxStep_some_acc xs c
      | some a =>
        rw [← h]
        exact foldl_maxStep_some_acc xs (max a c)
    · exact ih (maxStep acc x) c h

theorem getD_mem_take (l : List (Option ℚ)) (i j : Nat) (c : ℚ)
    (hji : j ≤ i) (hj : j < l.length) (hc : l.getD j none = some c) :
    some c ∈ l.take (i+1) := by
  rw [List.mem_take_iff_getElem]
  refine ⟨j, by simp; omega, ?_⟩
  rw [← List.getD_eq_getElem l none hj]
  exact hc

theorem mem_take_getD (l : List (Option ℚ)) (i : Nat) (c : ℚ)
    (h : some c ∈ l.take (i+1)) :
    ∃ j, j ≤ i ∧ j < l.length ∧ l.getD j none = some c := by
  rw [List.mem_take_iff_getElem] at h
  rcases h with ⟨j, hj, hv⟩
  have hj2 : j < l.length := by simp at hj; omega
  refine ⟨j, by simp at hj; omega, hj2, ?_⟩
  rw [List.getD_eq_getElem l none hj2]
  exact hv

theorem dd_getD_eq (cum peak : List (Option ℚ)) (i : Nat)
    (hc : i < cum.length) (hp : i < peak.length) :
    (drawdownOf cum peak).getD i none
      = (match cum.getD i none, peak.getD i none with
         | some c, some pk => some ((c - pk) / pk)
         | _, _ => none) := by
  rw [List.getD_eq_getElem _ _ (by simp [length_drawdownOf]; omega)]
  simp only [drawdownOf, List.getElem_zipWith]
  rw [List.getD_eq_getElem _ _ hc, List.getD_eq_getElem _ _ hp]

theorem pctChangeAux_map_some (l : List ℚ) : ∀ b : ℚ,
    pctChangeAux (some b) (l.map some) = (ratios b l).map some := by
  induction l with
  | nil => intro b; rfl
  | cons a tl ih => intro b; simp [pctChangeAux, ratios, ih]

theorem cumprodAux_map_some (fs : List ℚ) : ∀ acc : ℚ,
    cumprodAux acc (fs.map some) = (scanMul acc fs).map some := by
  induction fs with
  | nil => intro acc; rfl
  | cons f fs ih => intro acc; simp [cumprodAux, scanMul, ih]

theorem scanMul_chain (fs : List ℚ) : ∀ acc : ℚ, 0 < acc → (∀ f ∈ fs, 1 ≤ f) →
    List.Chain' (· ≤ ·) (scanMul acc fs) ∧ ∀ x ∈ scanMul acc fs, acc ≤ x := by
  induction fs with
  | nil => intro acc _ _; exact ⟨List.chain'_nil, by simp [scanMul]⟩
  | cons f fs ih =>
    intro acc hacc hfs
    have hf : 1 ≤ f := hfs f (List.mem_cons_self _ _)
    have hacc2 : 0 < acc * f := mul_pos hacc (lt_of_lt_of_le one_pos hf)
    have htail := ih (acc * f) hacc2 (fun g hg => hfs g (List.mem_cons_of_mem _ hg))
    have hstep : acc ≤ acc * f := le_mul_of_one_le_right hacc.le hf
    refine ⟨?_, ?_⟩
    · rw [scanMul]
      apply List.chain'_cons'.mpr
      refine ⟨?_, htail.1⟩
      intro y hy
      exact htail.2 y (List.mem_of_mem_head? hy)
    · intro x hx
      rw [scanMul] at hx
      rcases List.mem_cons.mp hx with h | h
      · rw [h]
        exact hstep
      · exact le_trans hstep (htail.2 x h)

theorem ratios_ge_one (l : List ℚ) : ∀ b : ℚ, 0 < b → (∀ v ∈ l, 0 < v) →
    List.Chain' (· ≤ ·) (b :: l) → ∀ r ∈ ratios b l, 1 ≤ 1 + r := by
  induction l with
  | nil => intro b _ _ _ r hr; simp [ratios] at hr
  | cons a tl ih =>
    intro b hb hl hchain r hr
    have hba : b ≤ a := (List.chain'_cons.mp hchain).1
    have hchain2 : List.Chain' (· ≤ ·) (a :: tl) := (List.chain'_cons.mp hchain).2
    rw [ratios] at hr
    rcases List.mem_cons.mp hr with h | h
    · rw [h]
      have h2 : 1 + (a / b - 1) = a / b := by ring
      rw [h2]
      exact (one_le_div hb).mpr hba
    · exact ih a (hl a (List.mem_cons_self _ _))
        (fun v hv => hl v (List.mem_cons_of_mem _ hv)) hchain2 r h

theorem map_some_getD (l : List ℚ) (k : Nat) (hk : k < l.length) :
    (l.map some).getD k none = some (l.getD k 0) := by
  rw [List.getD_eq_getElem _ _ (by simpa using hk), List.getElem_map,
    List.getD_eq_getElem l 0 hk]

theorem drawdown_nonpos_abstract (cum : List (Option ℚ))
    (hpos : ∀ c, some c ∈ cum → 0 < c) (i : Nat) (d : ℚ)
    (hd : (drawdownOf cum (runningPeak cum)).getD i none = some d) : d ≤ 0 := by
  by_cases hi : i < cum.length
  case neg =>
    rw [List.getD_eq_default _ _ (by simp [length_drawdownOf, length_runningPeak]; omega)] at hd
    exact absurd hd (by simp)
  have hpk : i < (runningPeak cum).length := by rw [length_runningPeak]; exact hi
  rw [dd_getD_eq cum _ i hi hpk] at hd
  rcases hcum : cum.getD i none with _ | c
  · rw [hcum] at hd; simp at hd
  rcases hpk2 : (runningPeak cum).getD i none with _ | m
  · rw [hcum, hpk2] at hd; simp at hd
  rw [hcum, hpk2] at hd
  simp only [Option.some.injEq] at hd
  have hpeak_eq : (runningPeak cum).getD i none = (cum.take (i+1)).foldl maxStep none :=
    expMaxAux_getD cum none i hi
  rw [hpeak_eq] at hpk2
  have hcmem : some c ∈ cum.take (i+1) := getD_mem_take cum i i c le_rfl hi hcum
  have hcle := (foldl_maxStep_le _ none m hpk2).1 c hcmem
  have hmmem : some m ∈ cum.take (i+1) := by
    rcases foldl_maxStep_attained _ none m hpk2 with h | h
    · exact h
    · exact absurd h (by simp)
  have hmpos : 0 < m := hpos m (List.take_subset _ _ hmmem)
  rw [← hd, div_le_iff₀ hmpos]
  linarith

theorem drawdown_zero_iff_abstract (cum : List (Option ℚ))
    (hpos : ∀ c, some c ∈ cum → 0 < c) (i : Nat) (hi : i < cum.length) :
    (drawdownOf cum (runningPeak cum)).getD i none = some 0
      ↔ ∃ c, cum.getD i none = some c
          ∧ ∀ j c', j ≤ i → cum.getD j none = some c' → c' ≤ c := by
  have hpk : i < (runningPeak cum).length := by rw [length_runningPeak]; exact hi
  have hpeak_eq : (runningPeak cum).getD i none = (cum.take (i+1)).foldl maxStep none :=
    expMaxAux_getD cum none i hi
  constructor
  · intro hd
    rw [dd_getD_eq cum _ i hi hpk] at hd
    rcases hcum : cum.getD i none with _ | c
    · rw [hcum] at hd; simp at hd
    rcases hpk2 : (runningPeak cum).getD i none with _ | m
    · rw [hcum, hpk2] at hd; simp at hd
    rw [hcum, hpk2] at hd
    simp only [Option.some.injEq] at hd
    rw [hpeak_eq] at hpk2
    have hmmem : some m ∈ cum.take (i+1) := by
      rcases foldl_maxStep_attained _ none m hpk2 with h | h
      · exact h
      · exact absurd h (by simp)
    have hmpos : 0 < m := hpos m (List.take_subset _ _ hmmem)
    have hcm : c = m := by
      rcases div_eq_zero_iff.mp hd with h | h
      · linarith
      · exact absurd h (ne_of_gt hmpos)
    refine ⟨c, rfl, ?_⟩
    intro j c' hj hc'
    have hmem : some c' ∈ cum.take (i+1) :=
      getD_mem_take cum i j c' hj (lt_of_le_of_lt hj hi) hc'
    have := (foldl_maxStep_le _ none m hpk2).1 c' hmem
    rw [hcm]
    exact this
  · rintro ⟨c, hcum, hdom⟩
    have hcmem : some c ∈ cum.take (i+1) := getD_mem_take cum i i c le_rfl hi hcum
    rcases foldl_maxStep_some (cum.take (i+1)) none c hcmem with ⟨m, hm⟩
    have hpk2 : (runningPeak cum).getD i none = some m := by rw [hpeak_eq]; exact hm
    have hcle := (foldl_maxStep_le _ none m hm).1 c hcmem
    have hmmem : some m ∈ cum.take (i+1) := by
      rcases foldl_maxStep_attained _ none m hm with h | h
      · exact h
      · exact absurd h (by simp)
    rcases mem_take_getD cum i m hmmem with ⟨j, hji, hjlen, hjget⟩
    have hmc : m ≤ c := hdom j m hji hjget
    have hcm : c = m := le_antisymm hcle hmc
    rw [dd_getD_eq cum _ i hi hpk, hcum, hpk2, ← hcm]
    simp

theorem length_rad_dd (prices : List (Option ℚ)) :
    (returns_and_drawdown prices).2.1.length = prices.length := by
  show (drawdownOf _ _).length = _
  simp [length_drawdownOf, length_runningPeak, length_cumGrowth, length_pct_change]

theorem chain_le_getD (l : List ℚ) (h : List.Chain' (· ≤ ·) l) (a b : Nat)
    (hab : a ≤ b) (hb : b < l.length) : l.getD a 0 ≤ l.getD b 0 := by
  rcases Nat.eq_or_lt_of_le hab with h1 | h1
  · subst h1; exact le_refl _
  · have hp := List.chain'_iff_pairwise.mp h
    rw [List.pairwise_iff_get] at hp
    have h2 := hp ⟨a, by omega⟩ ⟨b, hb⟩ h1
    rw [List.getD_eq_getElem _ _ (show a < l.length by omega), List.getD_eq_getElem _ _ hb]
    simpa [List.get_eq_getElem] using h2

theorem map_some_pos (ps : List ℚ) (hpos : ∀ v ∈ ps, 0 < v) :
    ∀ v, some v ∈ ps.map some → 0 < v := by
  intro v hv
  rcases List.mem_map.mp hv with ⟨u, hu, huv⟩
  injection huv with huv
  exact huv ▸ hpos u hu

/-- **C5**: wherever the drawdown is defined it is `≤ 0` (part 1), it is
`0` exactly at the timestamps where the cumulative growth attains its
running maximum (part 2), and a gap-free monotonically rising price series
has drawdown `0` at every point where it is defined (part 3).  Prices are
assumed positive, as levels of a traded instrument are. -/
theorem C5_drawdown_nonpos_and_peak :
    (∀ prices : List (Option ℚ), (∀ v, some v ∈ prices → 0 < v) →
      ∀ i d, (returns_and_drawdown prices).2.1.getD i none = some d → d ≤ 0)
    ∧ (∀ prices : List (Option ℚ), (∀ v, some v ∈ prices → 0 < v) →
      ∀ i, i < prices.length →
        ((returns_and_drawdown prices).2.1.getD i none = some 0
          ↔ ∃ c, (cumGrowth (pct_change prices)).getD i none = some c
              ∧ ∀ j c', j ≤ i → (cumGrowth (pct_change prices)).getD j none = some c' → c' ≤ c))
    ∧ (∀ ps : List ℚ, (∀ v ∈ ps, 0 < v) → List.Chain' (· ≤ ·) ps →
      ∀ i, (returns_and_drawdown (ps.map some)).2.1.getD i none ≠ none →
        (returns_and_drawdown (ps.map some)).2.1.getD i none = some 0) := by
  have hcore1 : ∀ prices : List (Option ℚ), (∀ v, some v ∈ prices → 0 < v) →
      ∀ i d, (returns_and_drawdown prices).2.1.getD i none = some d → d ≤ 0 := by
    intro prices hpos i d hd
    exact drawdown_nonpos_abstract _ (cumGrowth_pos prices hpos) i d hd
  have hcore2 : ∀ prices : List (Option ℚ), (∀ v, some v ∈ prices → 0 < v) →
      ∀ i, i < prices.length →
      ((returns_and_drawdown prices).2.1.getD i none = some 0
        ↔ ∃ c, (cumGrowth (pct_change prices)).getD i none = some c
            ∧ ∀ j c', j ≤ i → (cumGrowth (pct_change prices)).getD j none = some c' → c' ≤ c) := by
    intro prices hpos i hi
    exact drawdown_zero_iff_abstract _ (cumGrowth_pos prices hpos) i
      (by rw [length_cumGrowth, length_pct_change]; exact hi)
  refine ⟨hcore1, hcore2, ?_⟩
  intro ps hpos hchain i hne
  have hposo := map_some_pos ps hpos
  by_cases hi : i < (ps.map some).length
  case neg =>
    rw [List.getD_eq_default _ _ (by rw [length_rad_dd]; omega)] at hne
    exact absurd rfl hne
  have hiq : i < (cumGrowth (pct_change (ps.map some))).length := by
    rw [length_cumGrowth, length_pct_change]; exact hi
  rcases hcv : (cumGrowth (pct_change (ps.map some))).getD i none with _ | cv
  · exfalso
    have h3 := dd_getD_eq (cumGrowth (pct_change (ps.map some)))
      (runningPeak (cumGrowth (pct_change (ps.map some)))) i hiq
      (by rw [length_runningPeak]; exact hiq)
    rw [hcv] at h3
    exact hne h3
  apply (hcore2 (ps.map some) hposo i hi).mpr
  refine ⟨cv, hcv, ?_⟩
  -- the cumulative-growth dominance: gap-free monotone prices give a
  -- nondecreasing running product
  cases ps with
  | nil => simp at hi
  | cons p tl =>
    have hp : 0 < p := hpos p (List.mem_cons_self _ _)
    have htl : ∀ v ∈ tl, 0 < v := fun v hv => hpos v (List.mem_cons_of_mem _ hv)
    have hfs : ∀ f ∈ (ratios p tl).map (fun r => 1 + r), 1 ≤ f := by
      intro f hf
      rcases List.mem_map.mp hf with ⟨r, hr, hrf⟩
      exact hrf ▸ ratios_ge_one tl p hp htl hchain r hr
    have hshape : cumGrowth (pct_change ((p :: tl).map some))
        = none :: (scanMul 1 ((ratios p tl).map (fun r => 1 + r))).map some := by
      have h1 : ((ratios p tl).map some).map (Option.map (fun r => 1 + r))
          = ((ratios p tl).map (fun r => 1 + r)).map some := by
        simp [List.map_map]
      calc cumGrowth (pct_change ((p :: tl).map some))
          = cumprodAux 1 (none :: (((ratios p tl).map some).map (Option.map (fun r => 1 + r)))) := by
            simp only [List.map_cons, pct_change, pctChangeAux_map_some, cumGrowth,
              List.map_cons, Option.map_none']
        _ = cumprodAux 1 (none :: (((ratios p tl).map (fun r => 1 + r)).map some)) := by rw [h1]
        _ = none :: cumprodAux 1 (((ratios p tl).map (fun r => 1 + r)).map some) := rfl
        _ = none :: (scanMul 1 ((ratios p tl).map (fun r => 1 + r))).map some := by
            rw [cumprodAux_map_some]
    set sl := scanMul 1 ((ratios p tl).map (fun r => 1 + r)) with hsl
    have hchainsl : List.Chain' (· ≤ ·) sl :=
      (scanMul_chain _ 1 one_pos hfs).1
    intro j c' hj hc'
    rw [hshape] at hcv hc'
    cases j with
    | zero => simp at hc'
    | succ j =>
      rw [List.getD_cons_succ] at hc'
      cases i with
      | zero => simp at hcv
      | succ i2 =>
        rw [List.getD_cons_succ] at hcv
        have hjlen : j < sl.length := by
          by_contra hcon
          rw [List.getD_eq_default _ _ (by simpa using Nat.le_of_not_lt hcon)] at hc'
          exact absurd hc' (by simp)
        have hilen : i2 < sl.length := by
          by_contra hcon
          rw [List.getD_eq_default _ _ (by simpa using Nat.le_of_not_lt hcon)] at hcv
          exact absurd hcv (by simp)
        rw [map_some_getD sl j hjlen] at hc'
        rw [map_some_getD sl i2 hilen] at hcv
        injection hc' with hc'
        injection hcv with hcv
        rw [← hc', ← hcv]
        exact chain_le_getD sl hchainsl j i2 (by omega) hilen

/-- Witness for C5 at concrete inputs: a rise-then-fall series for parts 1
and 2, a monotone rising series for part 3. -/
theorem C5_drawdown_nonpos_and_peak_witness :
    ((∀ v, some v ∈ ([some 4, some 2, some 1] : List (Option ℚ)) → 0 < v)
      ∧ (returns_and_drawdown [some 4, some 2, some 1]).2.1.getD 2 none = some (-(1:ℚ)/2)
      ∧ (-(1:ℚ)/2 ≤ (0:ℚ)))
    ∧ (1 < ([some 4, some 2, some 1] : List (Option ℚ)).length
      ∧ ((returns_and_drawdown [some 4, some 2, some 1]).2.1.getD 1 none = some 0
          ↔ ∃ c, (cumGrowth (pct_change [some 4, some 2, some 1])).getD 1 none = some c
              ∧ ∀ j c', j ≤ 1 →
                  (cumGrowth (pct_change [some 4, some 2, some 1])).getD j none = some c' → c' ≤ c))
    ∧ ((∀ v ∈ ([1, 2] : List ℚ), 0 < v)
      ∧ List.Chain' (· ≤ ·) ([1, 2] : List ℚ)
      ∧ (returns_and_drawdown (([1, 2] : List ℚ).map some)).2.1.getD 1 none ≠ none
      ∧ (returns_and_drawdown (([1, 2] : List ℚ).map some)).2.1.getD 1 none = some 0) := by
  have hpos : ∀ v, some v ∈ ([some 4, some 2, some 1] : List (Option ℚ)) → 0 < v := by
    intro v hv
    simp at hv
    rcases hv with h | h | h <;> subst h <;> norm_num
  have hdd2 : (returns_and_drawdown [some 4, some 2, some 1]).2.1.getD 2 none
      = some (-(1:ℚ)/2) := by
    show (drawdownOf _ _).getD 2 none = _
    norm_num [drawdownOf, cumGrowth, pct_change, pctChangeAux, cumprodAux, runningPeak,
      expMaxAux, maxStep, max_def]
  have hdd1 : (returns_and_drawdown (([1, 2] : List ℚ).map some)).2.1.getD 1 none
      = some 0 := by
    show (drawdownOf _ _).getD 1 none = _
    norm_num [drawdownOf, cumGrowth, pct_change, pctChangeAux, cumprodAux, runningPeak,
      expMaxAux, maxStep, max_def]
  have hne : (returns_and_drawdown (([1, 2] : List ℚ).map some)).2.1.getD 1 none ≠ none := by
    intro h
    rw [hdd1] at h
    cases h
  exact ⟨⟨hpos, hdd2, C5_drawdown_nonpos_and_peak.1 _ hpos 2 _ hdd2⟩,
         ⟨by norm_num, C5_drawdown_nonpos_and_peak.2.1 _ hpos 1 (by norm_num)⟩,
         ⟨by norm_num, by simp, hne,
          C5_drawdown_nonpos_and_peak.2.2 [1, 2] (by norm_num) (by simp) 1 hne⟩⟩

theorem dropnaFrom_map_some (l : List ℚ) : ∀ i : Nat,
    dropnaFrom i (l.map some) = List.enumFrom i l := by
  induction l with
  | nil => intro i; rfl
  | cons a tl ih => intro i; simp [dropnaFrom, List.enumFrom, ih]

theorem dropnaPairs_map_some (l : List ℚ) :
    dropnaPairs (l.map some) = l.enum := by
  rw [dropnaPairs, dropnaFrom_map_some]
  rfl

theorem lookup_enumFrom {α : Type} (l : List α) : ∀ (off k : Nat) (d : α),
    k < l.length →
    (List.enumFrom off l).lookup (off + k) = some (l.getD k d) := by
  induction l with
  | nil => intro off k d hk; simp at hk
  | cons a tl ih =>
    intro off k d hk
    cases k with
    | zero => simp [List.enumFrom, List.lookup]
    | succ k =>
      have hne : (off + (k+1) == off) = false := by
        simp
      have harith : off + (k + 1) = (off + 1) + k := by omega
      rw [List.enumFrom, List.lookup, hne, harith]
      exact ih (off + 1) k d (by simpa using hk)

theorem lookup_enum {α : Type} (l : List α) (k : Nat) (d : α) (hk : k < l.length) :
    l.enum.lookup k = some (l.getD k d) := by
  have := lookup_enumFrom l 0 k d hk
  simpa using this

theorem ratFloor_eq_floor (q : ℚ) : ratFloor q = ⌊q⌋ := by
  rw [Rat.floor_def, ratFloor]
  exact Int.fdiv_eq_ediv _ (by positivity)

theorem ratCeil_eq_neg_floor (q : ℚ) : ratCeil q = -⌊-q⌋ := by
  rw [ratCeil, ratFloor_eq_floor]

/-- **C3 counterexample**: with window 2, `vix = [10, NaN, 1]` and
`hy = [1, 1, 1]`, the historical classifier computes the rolling median of
the vix column over positional windows (the window at the last position is
`[NaN, 1]`, median `1`, so `1 >= 1` gives class `High`), while
`current_regime` first drops the NaN and rolls over the compacted series
(its last window is `[10, 1]`, median `5.5`, so `1 < 5.5` gives class
`Low`): the two report different X-classes and quadrants for the same
timestamp and window. -/
theorem C3_counterexample :
    current_regime [some 10, none, some 1] [some 1, some 1, some 1] 2
      = Except.ok (some
        { date := 2, vixValue := 1, hyValue := 1,
          vix_class := "Low", hyig_class := "Tight",
          quadrant := "Low_Tight", quadrantLabel := "Late cycle (Selective)",
          threshold_vix_median := some ((11:ℚ)/2), threshold_hy_median := some 1 })
    ∧ ((classify_quadrant [some 10, none, some 1] [some 1, some 1, some 1] 2).getD 2 default).vix_class
        = "High"
    ∧ ((classify_quadrant [some 10, none, some 1] [some 1, some 1, some 1] 2).getD 2 default).quadrant
        = "High_Tight"
    ∧ ("Low" : String) ≠ "High" := by
  have hc : rolling_percentile [some (10:ℚ), none, some 1] 2 50 = [some 10, some 10, some 1] := by
    simp only [rolling_percentile, rollingAux, rollingStep, min_periods]
    norm_num [percentile_linear, List.insertionSort, List.orderedInsert, ratFloor_eq_floor,
      ratCeil_eq_neg_floor, List.filterMap_cons, List.filterMap_nil]
  have hh : rolling_percentile [some (1:ℚ), some 1, some 1] 2 50 = [some 1, some 1, some 1] := by
    simp only [rolling_percentile, rollingAux, rollingStep, min_periods]
    norm_num [percentile_linear, List.insertionSort, List.orderedInsert, ratFloor_eq_floor,
      ratCeil_eq_neg_floor, List.filterMap_cons, List.filterMap_nil]
  refine ⟨?_, ?_, ?_, by simp⟩
  · norm_num [current_regime, dropnaPairs, dropnaFrom, cmpGE, quadrantLabelOf,
      quadrantTable, List.lookup, List.zip, List.zipWith,
      show ((2:Nat) == 0) = false from rfl, show ((2:Nat) == 1) = false from rfl,
      show ((2:Nat) == 2) = true from rfl,
      rollingStep, min_periods, percentile_linear, List.insertionSort, List.orderedInsert,
      ratFloor_eq_floor, ratCeil_eq_neg_floor, List.filterMap_cons, List.filterMap_nil]
    rw [if_neg (by simp)]
    rfl
  · rw [classify_quadrant_getD _ _ _ _ (by norm_num)]
    norm_num [hc, hh, cmpGE]
  · rw [classify_quadrant_getD _ _ _ _ (by norm_num)]
    norm_num [hc, hh, cmpGE]
    rfl

/-- **C3 (amended)**: when neither indicator column contains a missing
value, `current_regime` computes thresholds with exactly the semantics of
the historical classifier: the X-class, Y-class and quadrant it reports
for the latest timestamp equal those `classify_quadrant` assigns at that
timestamp with the same window.  (With gaps the two differ: the
counterexample shows `current_regime` rolls over the `dropna`-compacted
series while the classifier rolls over positional windows.) -/
theorem C3_current_regime_matches_classifier (vs hs : List ℚ) (w : Nat)
    (hne : vs ≠ []) (hlen : vs.length = hs.length) :
    ∃ r, current_regime (vs.map some) (hs.map some) w = Except.ok (some r)
      ∧ r.vix_class
          = ((classify_quadrant (vs.map some) (hs.map some) w).getD (vs.length - 1) default).vix_class
      ∧ r.hyig_class
          = ((classify_quadrant (vs.map some) (hs.map some) w).getD (vs.length - 1) default).hyig_class
      ∧ r.quadrant
          = ((classify_quadrant (vs.map some) (hs.map some) w).getD (vs.length - 1) default).quadrant := by
  have hn : 0 < vs.length := List.length_pos.mpr hne
  have henumv : vs.enum ≠ [] := by
    intro h
    have h2 := congrArg List.length h
    simp at h2
    exact hne h2
  have henumh : hs.enum ≠ [] := by
    intro h
    have h2 := congrArg List.length h
    simp at h2
    subst h2
    simp at hlen
    exact hne hlen
  simp only [current_regime, dropnaPairs_map_some]
  rw [if_neg (by simp [henumv, henumh])]
  simp only [List.length_map, List.enum_map_fst, List.enum_map_snd]
  have hzipv : (List.range vs.length).zip (rolling_percentile (vs.map some) w 50)
      = (rolling_percentile (vs.map some) w 50).enum := by
    rw [List.enum_eq_zip_range, length_rolling_percentile, List.length_map]
  have hziph : (List.range hs.length).zip (rolling_percentile (hs.map some) w 50)
      = (rolling_percentile (hs.map some) w 50).enum := by
    rw [List.enum_eq_zip_range, length_rolling_percentile, List.length_map]
  rw [hzipv, hziph]
  rw [lookup_enum vs (vs.length - 1) 0 (by omega)]
  rw [lookup_enum hs (vs.length - 1) 0 (by omega)]
  rw [lookup_enum (rolling_percentile (vs.map some) w 50) (vs.length - 1) none
    (by rw [length_rolling_percentile, List.length_map]; omega)]
  rw [lookup_enum (rolling_percentile (hs.map some) w 50) (vs.length - 1) none
    (by rw [length_rolling_percentile, List.length_map]; omega)]
  dsimp only
  refine ⟨_, rfl, ?_, ?_, ?_⟩ <;>
    rw [classify_quadrant_getD _ _ _ _ (by rw [List.length_map]; omega)] <;>
    rw [map_some_getD vs (vs.length - 1) (by omega),
      map_some_getD hs (vs.length - 1) (by omega)]

/-- Witness for C3 (amended) at a concrete gap-free input. -/
theorem C3_current_regime_matches_classifier_witness :
    ([(1:ℚ), 2] ≠ []) ∧ ([(1:ℚ), 2].length = [(3:ℚ), 4].length)
    ∧ (∃ r, current_regime ([(1:ℚ), 2].map some) ([(3:ℚ), 4].map some) 2 = Except.ok (some r)
        ∧ r.vix_class
            = ((classify_quadrant ([(1:ℚ), 2].map some) ([(3:ℚ), 4].map some) 2).getD
                ([(1:ℚ), 2].length - 1) default).vix_class
        ∧ r.hyig_class
            = ((classify_quadrant ([(1:ℚ), 2].map some) ([(3:ℚ), 4].map some) 2).getD
                ([(1:ℚ), 2].length - 1) default).hyig_class
        ∧ r.quadrant
            = ((classify_quadrant ([(1:ℚ), 2].map some) ([(3:ℚ), 4].map some) 2).getD
                ([(1:ℚ), 2].length - 1) default).quadrant) :=
  ⟨by simp, rfl, C3_current_regime_matches_classifier [1, 2] [3, 4] 2 (by simp) rfl⟩
